import Mathlib

/-!
Verification of the real-time audio pipeline of this repository:
sample-rate conversion, PCM 16-bit encoding/decoding, base64 transport
encoding, capture-side mute gating, and playback scheduling with
interruption handling.

JavaScript numbers are modelled as exact rationals (ℚ); `Math.floor`,
`Math.round` and integer truncation (the ToInt16 conversion used by
`Int16Array` stores and `DataView.setInt16`) are modelled explicitly.
Byte buffers are lists of naturals below 256.
-/

/-- Truncation toward zero, the JavaScript ToInteger conversion applied by
typed-array stores before the modular wrap. -/
def jsTrunc (q : ℚ) : ℤ := if q < 0 then ⌈q⌉ else ⌊q⌋

/-- JavaScript Math.round (half-up), landing in ℕ for non-negative inputs
as used by the round-based downsampler variant. -/
def natRound (q : ℚ) : ℕ := (⌊q + 1/2⌋).toNat

namespace AudioUtils

/-! ## Base64 transport encoding

The source functions `arrayBufferToBase64` and `base64ToUint8Array`
(src/services/audioUtils.ts) map a byte buffer 1:1 to a binary string and
call the platform primitives `btoa` / `atob`; those primitives are modelled
here by the standard base64 algorithm on well-formed input (RFC 4648
alphabet, `=` padding). -/

/-- The 64-character base64 alphabet, by sextet value. -/
def encChar (n : ℕ) : Char :=
  if n < 26 then Char.ofNat (65 + n)
  else if n < 52 then Char.ofNat (97 + (n - 26))
  else if n < 62 then Char.ofNat (48 + (n - 52))
  else if n = 62 then Char.ofNat 43
  else Char.ofNat 47

/-- Inverse alphabet lookup used by the decoder. -/
def decChar (c : Char) : ℕ :=
  let n := c.toNat
  if 65 ≤ n ∧ n ≤ 90 then n - 65
  else if 97 ≤ n ∧ n ≤ 122 then n - 97 + 26
  else if 48 ≤ n ∧ n ≤ 57 then n - 48 + 52
  else if n = 43 then 62
  else if n = 47 then 63
  else 0

/-- Base64 encoding of a byte list (the `btoa` step): three bytes become
four alphabet characters, with `=` padding for a trailing group of one or
two bytes. -/
def b64encode : List ℕ → List Char
  | [] => []
  | [a] => [encChar (a / 4), encChar (a % 4 * 16), '=', '=']
  | [a, b] => [encChar (a / 4), encChar (a % 4 * 16 + b / 16), encChar (b % 16 * 4), '=']
  | a :: b :: c :: rest =>
      encChar (a / 4) :: encChar (a % 4 * 16 + b / 16) ::
      encChar (b % 16 * 4 + c / 64) :: encChar (c % 64) :: b64encode rest

/-- Base64 decoding of a character list (the `atob` step) on well-formed
input: quads of alphabet characters yield three bytes, a final quad padded
with one or two `=` yields two bytes or one. -/
def b64decode : List Char → List ℕ
  | w :: x :: y :: z :: rest =>
      if z = '=' then
        if y = '=' then [decChar w * 4 + decChar x / 16]
        else [decChar w * 4 + decChar x / 16, decChar x % 16 * 16 + decChar y / 4]
      else
        (decChar w * 4 + decChar x / 16) :: (decChar x % 16 * 16 + decChar y / 4) ::
        (decChar y % 4 * 64 + decChar z) :: b64decode rest
  | _ => []

/-- Source function arrayBufferToBase64: each byte of the buffer becomes one
character of a binary string, which is then base64-encoded. -/
def arrayBufferToBase64 (buffer : List ℕ) : String := ⟨b64encode buffer⟩

/-- Source function base64ToUint8Array: decode the base64 string and read
each character of the binary string back as one byte. -/
def base64ToUint8Array (s : String) : List ℕ := b64decode s.data

/-! ## Sample-rate converter (src/services/audioUtils.ts, downsampleBuffer) -/

/-- The averaging window start for output index i: Math.floor of i times the
rate ratio. -/
def dsStart (i : ℕ) (ratio : ℚ) : ℕ := (⌊(i : ℚ) * ratio⌋).toNat

/-- The averaging window end for output index i, before clamping: Math.floor
of some (i+1) times the rate ratio. -/
def dsEnd (i : ℕ) (ratio : ℚ) : ℕ := (⌊((i : ℚ) + 1) * ratio⌋).toNat

/-- The number of output samples: Math.floor of the input length divided by
the rate ratio. -/
def dsNewLength (len : ℕ) (ratio : ℚ) : ℕ := (⌊(len : ℚ) / ratio⌋).toNat

/-- The input samples read by the inner averaging loop for output index i:
indices from the window start up to the window end clamped to the buffer
length. Reads are modelled by getD with default 0; the safety theorem for
the converter shows every such read is in bounds. -/
def dsWindow (buffer : List ℚ) (i : ℕ) (ratio : ℚ) : List ℚ :=
  (List.range (min (dsEnd i ratio) buffer.length - dsStart i ratio)).map
    (fun j => buffer.getD (dsStart i ratio + j) 0)

/-- One output sample: the window average when the window is non-empty,
otherwise the sample at the window start (in the source a raw indexed read,
shown unreachable for valid rates by the safety theorem). -/
def dsSample (buffer : List ℚ) (i : ℕ) (ratio : ℚ) : ℚ :=
  if 0 < (dsWindow buffer i ratio).length
  then (dsWindow buffer i ratio).sum / ((dsWindow buffer i ratio).length : ℚ)
  else buffer.getD (dsStart i ratio) 0

/-- Source function downsampleBuffer: identity on equal rates, an exception
on upsampling, otherwise block averages over floor-delimited windows. -/
def downsampleBuffer (buffer : List ℚ) (inputRate targetRate : ℚ) :
    Except String (List ℚ) :=
  if inputRate = targetRate then .ok buffer
  else if inputRate < targetRate then .error "Upsampling is not supported"
  else
    let ratio := inputRate / targetRate
    .ok ((List.range (dsNewLength buffer.length ratio)).map
      (fun i => dsSample buffer i ratio))

/-! ## PCM 16-bit encoding (createPcmBlob and the hooks floatTo16BitPCM) -/

/-- One float sample to the stored 16-bit integer: clamp to [-1, 1], scale
negatives by 0x8000 and non-negatives by 0x7FFF, then apply the ToInt16
conversion (truncate toward zero, wrap modulo 2^16 into [-32768, 32767]). -/
def encodePcmSample (x : ℚ) : ℤ :=
  let s := max (-1) (min 1 x)
  let v := jsTrunc (if s < 0 then s * 32768 else s * 32767)
  (v + 32768) % 65536 - 32768

/-- Little-endian byte pair of a stored 16-bit integer. -/
def int16ToBytes (v : ℤ) : ℕ × ℕ :=
  let u := (v % 65536).toNat
  (u % 256, u / 256)

/-- The little-endian byte stream of the encoded samples, as produced both
by the Int16Array buffer of createPcmBlob and by the DataView writes of the
hooks floatTo16BitPCM. -/
def pcm16Bytes (data : List ℚ) : List ℕ :=
  (data.map (fun x => [(int16ToBytes (encodePcmSample x)).1,
                       (int16ToBytes (encodePcmSample x)).2])).flatten

/-- The genai Blob record built by createPcmBlob. -/
structure GenaiBlob where
  data : String
  mimeType : String
deriving DecidableEq

/-- Source function createPcmBlob: PCM-encode the samples and base64-encode
the resulting byte buffer, tagged with the fixed 16 kHz PCM mime type. -/
def createPcmBlob (data : List ℚ) : GenaiBlob :=
  ⟨arrayBufferToBase64 (pcm16Bytes data), "audio/pcm;rate=16000"⟩

end AudioUtils

namespace Part000

/-! ## The round-based downsampler variant (src/unnamed/part_000)

This variant walks the input with a running offset: for each output index
the window ends at Math.round of ((index + 1) times the ratio) and the next
window starts where the previous one ended. Upsampling passes the input
through unchanged, and an empty window emits 0. -/

/-- The while loop of the part_000 downsampler: `k` outputs remain,
`offsetBuffer` is the running window start carried across iterations. -/
def loop (buffer : List ℚ) (ratio : ℚ) : ℕ → ℕ → ℕ → List ℚ
  | 0, _, _ => []
  | k + 1, offsetResult, offsetBuffer =>
      let nextOffsetBuffer := natRound (((offsetResult : ℚ) + 1) * ratio)
      let window := (List.range (min nextOffsetBuffer buffer.length - offsetBuffer)).map
        (fun j => buffer.getD (offsetBuffer + j) 0)
      (if 0 < window.length then window.sum / (window.length : ℚ) else 0) ::
        loop buffer ratio k (offsetResult + 1) nextOffsetBuffer

/-- Source function downsampleBuffer of part_000: identity on equal rates,
pass-through on upsampling, otherwise the chained round-window average. -/
def downsampleBuffer (buffer : List ℚ) (inputRate targetRate : ℚ) : List ℚ :=
  if inputRate = targetRate then buffer
  else if inputRate < targetRate then buffer
  else
    let ratio := inputRate / targetRate
    loop buffer ratio (AudioUtils.dsNewLength buffer.length ratio) 0 0

/-- The closed form of one part_000 loop output at index i: the
round-delimited window average with the fallback 0 on an empty window;
the loop characterization theorem proves the loop produces exactly these. -/
def sampleAt (buffer : List ℚ) (ratio : ℚ) (i : ℕ) : ℚ :=
  let s := natRound ((i : ℚ) * ratio)
  let f := min (natRound (((i : ℚ) + 1) * ratio)) buffer.length
  let w := (List.range (f - s)).map (fun j => buffer.getD (s + j) 0)
  if 0 < w.length then w.sum / (w.length : ℚ) else 0

end Part000

namespace SpecModel

/-- Modelled from the spec: the output sample the specification describes
for the converter, the arithmetic mean of the input samples whose position
falls in the window from round(i times ratio) to round((i+1) times ratio),
clamped to the input bounds. Used to compare the specified window against
the floor-based windows of src/services/audioUtils.ts. -/
def roundWindowMean (buffer : List ℚ) (ratio : ℚ) (i : ℕ) : ℚ :=
  let s := natRound ((i : ℚ) * ratio)
  let f := min (natRound (((i : ℚ) + 1) * ratio)) buffer.length
  let w := (buffer.drop s).take (f - s)
  w.sum / (w.length : ℚ)

end SpecModel

namespace LiveSession

/-! ## Playback scheduling and capture gating
(src/hooks/useLiveSession.ts; the scheduling state machine follows the
second hook variant whose handleServerMessage owns the Active Playback Set,
with the playAudioChunk lookahead of the first variant modelled alongside). -/

/-- An output buffer source node: its scheduled start, its duration, and
whether stop() has been called on it. -/
structure SourceNode where
  startTime : ℚ
  duration : ℚ
  stopped : Bool
deriving DecidableEq

/-- The playback scheduler state: the nextStartTime cursor and the Active
Playback Set (audioSourcesRef), in scheduling order. -/
structure PlaybackState where
  nextStartTime : ℚ
  active : List SourceNode
deriving DecidableEq

/-- A server message as the handler sees it: optional inline audio bytes
(after base64 decoding) and the interrupted flag. -/
structure ServerMessage where
  audioBytes : Option (List ℕ)
  interrupted : Bool

/-- The duration of a decoded chunk: decodeAudioData views the byte buffer
as 16-bit frames (two bytes each) at the fixed 24000 Hz output rate. -/
def decodedDuration (bytes : List ℕ) : ℚ := ((bytes.length / 2 : ℕ) : ℚ) / 24000

/-- The scheduling step of handleServerMessage for one decoded chunk: clamp
the cursor up to the current device time, start the source there, advance
the cursor by the buffer duration, and add the source to the Active
Playback Set. -/
def scheduleChunk (currentTime dur : ℚ) (s : PlaybackState) : PlaybackState :=
  let st := if s.nextStartTime < currentTime then currentTime else s.nextStartTime
  { nextStartTime := st + dur, active := s.active ++ [⟨st, dur, false⟩] }

/-- The scheduling step of playAudioChunk in the first hook variant: on a
gap (cursor behind the device clock) the start is pushed 0.05 s past the
current time; returns the scheduled start and the new cursor. -/
def playAudioChunkSched (currentTime dur next : ℚ) : ℚ × ℚ :=
  let st := if next < currentTime then currentTime + 1/20 else next
  (st, st + dur)

/-- Source function handleServerMessage: schedule any inline audio (when
the output context and node exist), then on the interrupted flag stop every
source in the Active Playback Set, clear the set, and reset the cursor to 0
and then to the current device time when the output context exists.
Returns the stop() calls issued (the stopped sources) with the new state. -/
def handleServerMessage (ctxTime : Option ℚ) (hasOutputNode : Bool)
    (msg : ServerMessage) (s : PlaybackState) : List SourceNode × PlaybackState :=
  let s1 := match msg.audioBytes, ctxTime, hasOutputNode with
    | some bytes, some t, true => scheduleChunk t (decodedDuration bytes) s
    | _, _, _ => s
  if msg.interrupted then
    (s1.active.map (fun src => { src with stopped := true }),
     { nextStartTime := match ctxTime with | some t => t | none => 0
       active := [] })
  else ([], s1)

/-- Folding the per-chunk scheduler over a sequence of
(device time, duration) chunks. -/
def runSchedule (chunks : List (ℚ × ℚ)) (s : PlaybackState) : PlaybackState :=
  chunks.foldl (fun st c => scheduleChunk c.1 c.2 st) s

/-- Source function floatTo16BitPCM of the hooks: the little-endian byte
buffer of the PCM-encoded samples, as written by DataView.setInt16. -/
def floatTo16BitPCM (input : List ℚ) : List ℕ := AudioUtils.pcm16Bytes input

/-- The wrapped signed 16-bit value read back from a little-endian byte
pair, as an Int16Array element. -/
def bytesToInt16 (b0 b1 : ℕ) : ℤ :=
  let u := b0 % 256 + 256 * (b1 % 256)
  if u < 32768 then (u : ℤ) else (u : ℤ) - 65536

/-- The decoding step of playAudioChunk: read the byte stream as 16-bit
little-endian integers and divide each by 32768. -/
def decodePcm16 : List ℕ → List ℚ
  | b0 :: b1 :: rest => (bytesToInt16 b0 b1 : ℚ) / 32768 :: decodePcm16 rest
  | _ => []

/-- The onaudioprocess callback of setupAudioInput (second hook variant):
when muted it returns at once; otherwise it updates the loudness UI state,
downsamples when the context rate differs from 16000, and hands the encoded
blob to the transport when the session promise exists. The first component
records whether setVolumeLevel was invoked; the second carries the possible
exception of the downsampler and the frame given to send, if any. -/
def onAudioProcess (isMuted hasSession : Bool) (ctxRate : ℚ)
    (inputData : List ℚ) : Bool × Except String (Option AudioUtils.GenaiBlob) :=
  if isMuted then (false, .ok none)
  else
    (true,
     match (if ctxRate ≠ 16000 then AudioUtils.downsampleBuffer inputData ctxRate 16000
            else .ok inputData) with
     | .error e => .error e
     | .ok dataToSend =>
        .ok (if hasSession then some (AudioUtils.createPcmBlob dataToSend) else none))

/-- The onaudioprocess callback of startAudioInput (first hook variant):
it returns at once when muted or when no session exists; otherwise it
updates the loudness state and sends the base64 of the 16-bit PCM bytes. -/
def startAudioInputProcess (isMuted hasSession : Bool) (ctxRate : ℚ)
    (inputData : List ℚ) : Bool × Except String (Option String) :=
  if isMuted then (false, .ok none)
  else if !hasSession then (false, .ok none)
  else
    (true,
     match (if ctxRate ≠ 16000 then AudioUtils.downsampleBuffer inputData ctxRate 16000
            else .ok inputData) with
     | .error e => .error e
     | .ok dataToSend => .ok (some (AudioUtils.arrayBufferToBase64 (floatTo16BitPCM dataToSend))))

end LiveSession

namespace Part002

/-- The interrupted branch of the part_002 variant of handleServerMessage:
it stops every active source and clears the set like the hooks variant, but
resets the nextStartTime cursor to 0 without restoring the current device
time. Returns the stop() calls issued with the new state. -/
def handleInterrupted (s : LiveSession.PlaybackState) :
    List LiveSession.SourceNode × LiveSession.PlaybackState :=
  (s.active.map (fun src => { src with stopped := true }),
   { nextStartTime := 0, active := [] })

end Part002

/-! ## Helper lemmas -/

theorem jsTrunc_bounds {q : ℚ} {lo hi : ℤ} (h1 : (lo : ℚ) ≤ q) (h2 : q ≤ (hi : ℚ)) :
    lo ≤ jsTrunc q ∧ jsTrunc q ≤ hi := by
  unfold jsTrunc
  split
  · exact ⟨by simpa using Int.ceil_mono h1, Int.ceil_le.mpr h2⟩
  · exact ⟨Int.le_floor.mpr h1, by simpa using Int.floor_mono h2⟩

theorem wrap16_eq {v : ℤ} (h1 : -32768 ≤ v) (h2 : v ≤ 32767) :
    (v + 32768) % 65536 - 32768 = v := by omega

theorem clamp_mem (s : ℚ) : -1 ≤ max (-1) (min 1 s) ∧ max (-1) (min 1 s) ≤ 1 :=
  ⟨le_max_left _ _, max_le (by norm_num) (min_le_left _ _)⟩

theorem jsTrunc_intCast (z : ℤ) : jsTrunc (z : ℚ) = z := by
  unfold jsTrunc
  split
  · exact Int.ceil_intCast z
  · exact Int.floor_intCast z

theorem encodePcmSample_no_wrap (s : ℚ) :
    AudioUtils.encodePcmSample s =
      jsTrunc (if max (-1) (min 1 s) < 0 then max (-1) (min 1 s) * 32768
               else max (-1) (min 1 s) * 32767) ∧
    -32768 ≤ AudioUtils.encodePcmSample s ∧ AudioUtils.encodePcmSample s ≤ 32767 := by
  obtain ⟨hc1, hc2⟩ := clamp_mem s
  set c := max (-1) (min 1 s) with hc
  have hb : -32768 ≤ jsTrunc (if c < 0 then c * 32768 else c * 32767) ∧
      jsTrunc (if c < 0 then c * 32768 else c * 32767) ≤ 32767 := by
    split
    · rename_i hneg
      refine ⟨(@jsTrunc_bounds _ (-32768) 0 (by push_cast; nlinarith)
        (by push_cast; nlinarith)).1, le_trans (@jsTrunc_bounds _ (-32768) 0
        (by push_cast; nlinarith) (by push_cast; nlinarith)).2 (by norm_num)⟩
    · rename_i hpos
      push_neg at hpos
      exact ⟨le_trans (by norm_num) (@jsTrunc_bounds _ 0 32767
        (by push_cast; nlinarith) (by push_cast; nlinarith)).1,
        (@jsTrunc_bounds _ 0 32767 (by push_cast; nlinarith)
        (by push_cast; nlinarith)).2⟩
  have he : AudioUtils.encodePcmSample s =
      jsTrunc (if c < 0 then c * 32768 else c * 32767) := by
    show (jsTrunc (if c < 0 then c * 32768 else c * 32767) + 32768) % 65536 - 32768 = _
    exact wrap16_eq hb.1 hb.2
  exact ⟨he, he ▸ hb.1, he ▸ hb.2⟩

/-! ## C9 -/

/-- C9: calling the sample-rate converter with source rate equal to target
rate returns the input sequence unchanged, in both the audioUtils converter
and the part_000 variant. -/
theorem downsample_equal_rates_identity (b : List ℚ) (r : ℚ) :
    AudioUtils.downsampleBuffer b r r = .ok b ∧ Part000.downsampleBuffer b r r = b := by
  constructor <;> simp [AudioUtils.downsampleBuffer, Part000.downsampleBuffer]

/-! ## C5 -/

/-- C5: the PCM encoder clamps each sample to [-1, 1] (saturating), scales
non-negative values by 32767 and negative values by 32768, stores the
truncated result without 16-bit wraparound, and lays it out as 2 bytes in
little-endian order; any sample at or above 1 encodes as 32767 (so 2.0
encodes like 1.0) and any sample at or below -1 encodes as -32768 (so -2.0
encodes like -1.0). -/
theorem pcm_encode_clamps_and_scales (s : ℚ) :
    (-32768 ≤ AudioUtils.encodePcmSample s ∧ AudioUtils.encodePcmSample s ≤ 32767)
    ∧ (0 ≤ s → s ≤ 1 → AudioUtils.encodePcmSample s = jsTrunc (s * 32767))
    ∧ (-1 ≤ s → s < 0 → AudioUtils.encodePcmSample s = jsTrunc (s * 32768))
    ∧ (1 ≤ s → AudioUtils.encodePcmSample s = 32767)
    ∧ (s ≤ -1 → AudioUtils.encodePcmSample s = -32768)
    ∧ LiveSession.floatTo16BitPCM [s] =
        [(AudioUtils.encodePcmSample s % 65536).toNat % 256,
         (AudioUtils.encodePcmSample s % 65536).toNat / 256] := by
  obtain ⟨he, hlo, hhi⟩ := encodePcmSample_no_wrap s
  refine ⟨⟨hlo, hhi⟩, ?_, ?_, ?_, ?_, ?_⟩
  · intro h0 h1
    have hcl : max (-1) (min 1 s) = s := by
      rw [min_eq_right h1, max_eq_right (by linarith)]
    rw [he, hcl, if_neg (not_lt.mpr h0)]
  · intro h0 h1
    have hcl : max (-1) (min 1 s) = s := by
      rw [min_eq_right (by linarith), max_eq_right h0]
    rw [he, hcl, if_pos h1]
  · intro h1
    have hcl : max (-1) (min 1 s) = 1 := by
      rw [min_eq_left h1, max_eq_right (by norm_num)]
    rw [he, hcl, if_neg (by norm_num), one_mul,
      show (32767 : ℚ) = ((32767 : ℤ) : ℚ) by norm_num, jsTrunc_intCast]
  · intro h1
    have hcl : max (-1) (min 1 s) = -1 := by
      rw [min_eq_right (by linarith), max_eq_left h1]
    rw [he, hcl, if_pos (by norm_num),
      show ((-1 : ℚ) * 32768) = ((-32768 : ℤ) : ℚ) by norm_num, jsTrunc_intCast]
  · simp [LiveSession.floatTo16BitPCM, AudioUtils.pcm16Bytes, AudioUtils.int16ToBytes]

/-- Witness for C5: instantiating the clamping conjuncts at 2 and -2. -/
theorem pcm_encode_clamps_witness :
    AudioUtils.encodePcmSample 2 = 32767 ∧ AudioUtils.encodePcmSample (-2) = -32768 :=
  ⟨(pcm_encode_clamps_and_scales 2).2.2.2.1 (by norm_num),
   (pcm_encode_clamps_and_scales (-2)).2.2.2.2.1 (by norm_num)⟩

/-! ## C8 -/

/-- C8 counterexample: with the mute gate engaged the capture callback
returns before the loudness computation, so on a concrete muted block the
volume level is not updated (first component false), refuting the claim
that the loudness computation continues to update while muted; no frame
reaches send either (second component carries no blob). -/
theorem mute_skips_volume_ce :
    (LiveSession.onAudioProcess true true 48000 [1/2]).1 = false
    ∧ (LiveSession.onAudioProcess true true 48000 [1/2]).2 = .ok none
    ∧ (LiveSession.startAudioInputProcess true true 48000 [1/2]).1 = false := by
  refine ⟨rfl, rfl, rfl⟩

/-- C8 (amended): while the mute gate is engaged, no captured audio frame
reaches the send operation of the transport, and the loudness computation is
skipped as well (the callback returns before updating the volume level), in
both hook variants. -/
theorem mute_gates_send_and_volume (hasSession : Bool) (rate : ℚ) (input : List ℚ) :
    (LiveSession.onAudioProcess true hasSession rate input).1 = false
    ∧ (LiveSession.onAudioProcess true hasSession rate input).2 = .ok none
    ∧ (LiveSession.startAudioInputProcess true hasSession rate input).1 = false
    ∧ (LiveSession.startAudioInputProcess true hasSession rate input).2 = .ok none := by
  refine ⟨rfl, rfl, rfl, rfl⟩

/-! ## C1 -/

/-- C1 counterexample: in the part_002 variant of the interruption handler,
after an interruption at device time 5 the cursor is 0, not the current
device time; the hooks handler on the same state yields 5 as the claim
demands. -/
theorem interruption_cursor_ce :
    (Part002.handleInterrupted ⟨3, [⟨0, 1, false⟩]⟩).2.nextStartTime = 0
    ∧ (Part002.handleInterrupted ⟨3, [⟨0, 1, false⟩]⟩).2.nextStartTime ≠ 5
    ∧ (LiveSession.handleServerMessage (some 5) true ⟨none, true⟩
        ⟨3, [⟨0, 1, false⟩]⟩).2.nextStartTime = 5 := by
  refine ⟨rfl, by norm_num [Part002.handleInterrupted], rfl⟩

/-- C1 (amended): after the src/hooks/useLiveSession.ts scheduler processes
a server message with the interrupted flag, every buffer of the Active
Playback Set has received a stop() call, the set is empty, and the cursor
equals the current time of the output device; the part_002 variant stops and
clears identically but resets the cursor to 0 instead of the device time. -/
theorem interruption_stops_clears_resets (t : ℚ) (hasNode : Bool)
    (msg : LiveSession.ServerMessage) (s : LiveSession.PlaybackState)
    (hmsg : msg.interrupted = true) :
    (∀ src ∈ s.active, { src with stopped := true } ∈
        (LiveSession.handleServerMessage (some t) hasNode msg s).1)
    ∧ (∀ src ∈ (LiveSession.handleServerMessage (some t) hasNode msg s).1,
        src.stopped = true)
    ∧ (LiveSession.handleServerMessage (some t) hasNode msg s).2.active = []
    ∧ (LiveSession.handleServerMessage (some t) hasNode msg s).2.nextStartTime = t
    ∧ (∀ src ∈ s.active, { src with stopped := true } ∈ (Part002.handleInterrupted s).1)
    ∧ (∀ src ∈ (Part002.handleInterrupted s).1, src.stopped = true)
    ∧ (Part002.handleInterrupted s).2.active = []
    ∧ (Part002.handleInterrupted s).2.nextStartTime = 0 := by
  have hsub : ∀ src ∈ s.active,
      src ∈ (match msg.audioBytes, (some t : Option ℚ), hasNode with
        | some bytes, some u, true => LiveSession.scheduleChunk u (LiveSession.decodedDuration bytes) s
        | _, _, _ => s).active := by
    intro src hsrc
    rcases msg with ⟨ab, intr⟩
    cases ab <;> cases hasNode <;>
      simp_all [LiveSession.scheduleChunk, List.mem_append]
  refine ⟨?_, ?_, ?_, ?_, ?_, ?_, rfl, rfl⟩
  · intro src hsrc
    simp only [LiveSession.handleServerMessage, hmsg, if_true]
    exact List.mem_map_of_mem _ (hsub src hsrc)
  · intro src hsrc
    simp only [LiveSession.handleServerMessage, hmsg, if_true] at hsrc
    obtain ⟨a, _, rfl⟩ := List.mem_map.mp hsrc
    rfl
  · simp [LiveSession.handleServerMessage, hmsg]
  · simp [LiveSession.handleServerMessage, hmsg]
  · intro src hsrc
    exact List.mem_map_of_mem _ hsrc
  · intro src hsrc
    obtain ⟨a, _, rfl⟩ := List.mem_map.mp hsrc
    rfl

/-- Witness for C1: the amended theorem instantiated on a state holding one
active source, with an interrupting message carrying audio, at device
time 7. -/
theorem interruption_stops_clears_resets_witness :
    (∀ src ∈ ([⟨2, 1, false⟩] : List LiveSession.SourceNode),
      { src with stopped := true } ∈
        (LiveSession.handleServerMessage (some 7) true ⟨some [0, 0, 0, 0], true⟩
          ⟨3, [⟨2, 1, false⟩]⟩).1)
    ∧ (∀ src ∈ (LiveSession.handleServerMessage (some 7) true ⟨some [0, 0, 0, 0], true⟩
          ⟨3, [⟨2, 1, false⟩]⟩).1, src.stopped = true)
    ∧ (LiveSession.handleServerMessage (some 7) true ⟨some [0, 0, 0, 0], true⟩
        ⟨3, [⟨2, 1, false⟩]⟩).2.active = []
    ∧ (LiveSession.handleServerMessage (some 7) true ⟨some [0, 0, 0, 0], true⟩
        ⟨3, [⟨2, 1, false⟩]⟩).2.nextStartTime = 7
    ∧ (∀ src ∈ ([⟨2, 1, false⟩] : List LiveSession.SourceNode),
      { src with stopped := true } ∈
        (Part002.handleInterrupted ⟨3, [⟨2, 1, false⟩]⟩).1)
    ∧ (∀ src ∈ (Part002.handleInterrupted ⟨3, [⟨2, 1, false⟩]⟩).1, src.stopped = true)
    ∧ (Part002.handleInterrupted ⟨3, [⟨2, 1, false⟩]⟩).2.active = []
    ∧ (Part002.handleInterrupted ⟨3, [⟨2, 1, false⟩]⟩).2.nextStartTime = 0 :=
  interruption_stops_clears_resets 7 true ⟨some [0, 0, 0, 0], true⟩ ⟨3, [⟨2, 1, false⟩]⟩ rfl

/-! ## C7 -/

theorem decChar_encChar : ∀ n < 64, AudioUtils.decChar (AudioUtils.encChar n) = n := by
  decide

theorem encChar_ne_pad : ∀ n < 64, AudioUtils.encChar n ≠ '=' := by
  decide

theorem b64_roundtrip : ∀ l : List ℕ, (∀ x ∈ l, x < 256) →
    AudioUtils.b64decode (AudioUtils.b64encode l) = l
  | [], _ => rfl
  | [a], h => by
      have ha : a < 256 := h a (by simp)
      have e1 := decChar_encChar (a / 4) (by omega)
      have e2 := decChar_encChar (a % 4 * 16) (by omega)
      simp [AudioUtils.b64encode, AudioUtils.b64decode, e1, e2]
      omega
  | [a, b], h => by
      have ha : a < 256 := h a (by simp)
      have hb : b < 256 := h b (by simp)
      have e1 := decChar_encChar (a / 4) (by omega)
      have e2 := decChar_encChar (a % 4 * 16 + b / 16) (by omega)
      have e3 := decChar_encChar (b % 16 * 4) (by omega)
      have n3 := encChar_ne_pad (b % 16 * 4) (by omega)
      simp [AudioUtils.b64encode, AudioUtils.b64decode, e1, e2, e3, n3]
      omega
  | a :: b :: c :: rest, h => by
      have ha : a < 256 := h a (by simp)
      have hb : b < 256 := h b (by simp)
      have hc : c < 256 := h c (by simp)
      have ih := b64_roundtrip rest (fun x hx => h x (by simp [hx]))
      have e1 := decChar_encChar (a / 4) (by omega)
      have e2 := decChar_encChar (a % 4 * 16 + b / 16) (by omega)
      have e3 := decChar_encChar (b % 16 * 4 + c / 64) (by omega)
      have e4 := decChar_encChar (c % 64) (by omega)
      have n4 := encChar_ne_pad (c % 64) (by omega)
      simp [AudioUtils.b64encode, AudioUtils.b64decode, e1, e2, e3, e4, n4, ih]
      omega

/-- C7: base64-encoding any byte buffer and decoding it back reproduces the
original byte sequence exactly, and re-encoding the decoded bytes
reproduces the base64 string, so the string round-trip holds on every
encoding of a buffer. -/
theorem base64_roundtrip (bytes : List ℕ) (h : ∀ x ∈ bytes, x < 256) :
    AudioUtils.base64ToUint8Array (AudioUtils.arrayBufferToBase64 bytes) = bytes
    ∧ AudioUtils.arrayBufferToBase64
        (AudioUtils.base64ToUint8Array (AudioUtils.arrayBufferToBase64 bytes)) =
      AudioUtils.arrayBufferToBase64 bytes := by
  have hr : AudioUtils.base64ToUint8Array (AudioUtils.arrayBufferToBase64 bytes) = bytes :=
    b64_roundtrip bytes h
  exact ⟨hr, by rw [hr]⟩

/-- Witness for C7: the round-trip at an explicit odd-length buffer. -/
theorem base64_roundtrip_witness :
    AudioUtils.base64ToUint8Array (AudioUtils.arrayBufferToBase64 [0, 255, 7]) = [0, 255, 7]
    ∧ AudioUtils.arrayBufferToBase64
        (AudioUtils.base64ToUint8Array (AudioUtils.arrayBufferToBase64 [0, 255, 7])) =
      AudioUtils.arrayBufferToBase64 [0, 255, 7] :=
  base64_roundtrip [0, 255, 7] (by decide)

/-! ## C2 -/

theorem ite_lt_eq_max (a b : ℚ) : (if a < b then b else a) = max a b := by
  split
  · exact (max_eq_right (le_of_lt (by assumption))).symm
  · exact (max_eq_left (not_lt.mp (by assumption))).symm

theorem scheduleChunk_eq (t d : ℚ) (s : LiveSession.PlaybackState) :
    LiveSession.scheduleChunk t d s =
      { nextStartTime := max s.nextStartTime t + d,
        active := s.active ++ [⟨max s.nextStartTime t, d, false⟩] } := by
  simp only [LiveSession.scheduleChunk, ite_lt_eq_max]

theorem runSchedule_invariant (chunks : List (ℚ × ℚ)) (s : LiveSession.PlaybackState)
    (hc : ∀ p ∈ chunks, 0 ≤ p.2)
    (h1 : List.Pairwise (fun p q => p.startTime + p.duration ≤ q.startTime) s.active)
    (h2 : ∀ p ∈ s.active, p.startTime + p.duration ≤ s.nextStartTime)
    (h3 : ∀ p ∈ s.active, 0 ≤ p.duration) :
    List.Pairwise (fun p q => p.startTime + p.duration ≤ q.startTime)
      (LiveSession.runSchedule chunks s).active
    ∧ (∀ p ∈ (LiveSession.runSchedule chunks s).active,
        p.startTime + p.duration ≤ (LiveSession.runSchedule chunks s).nextStartTime)
    ∧ (∀ p ∈ (LiveSession.runSchedule chunks s).active, 0 ≤ p.duration) := by
  induction chunks generalizing s with
  | nil => exact ⟨h1, h2, h3⟩
  | cons c rest ih =>
      have hc0 : 0 ≤ c.2 := hc c (by simp)
      have hstep : LiveSession.runSchedule (c :: rest) s =
          LiveSession.runSchedule rest (LiveSession.scheduleChunk c.1 c.2 s) := rfl
      rw [hstep]
      have hmax : s.nextStartTime ≤ max s.nextStartTime c.1 := le_max_left _ _
      refine ih (LiveSession.scheduleChunk c.1 c.2 s) (fun p hp => hc p (by simp [hp])) ?_ ?_ ?_
      · rw [scheduleChunk_eq]
        refine List.pairwise_append.mpr ⟨h1, List.pairwise_singleton _ _, ?_⟩
        intro a ha b hb
        simp only [List.mem_singleton] at hb
        subst hb
        exact le_trans (h2 a ha) hmax
      · rw [scheduleChunk_eq]
        dsimp only
        intro p hp
        simp only [List.mem_append, List.mem_singleton] at hp
        rcases hp with hp | rfl
        · exact le_trans (le_trans (h2 p hp) hmax) (by linarith)
        · simp
      · rw [scheduleChunk_eq]
        intro p hp
        simp only [List.mem_append, List.mem_singleton] at hp
        rcases hp with hp | rfl
        · exact h3 p hp
        · exact hc0

/-- C2: each incoming frame is scheduled to start at
max(nextStartTime, currentDeviceTime) (the first hook variant adds a fixed
0.05 s lookahead on the first frame after a gap), the cursor then advances
by exactly the buffer duration and is never left earlier than the device
time seen at scheduling; over any run of frames with non-negative durations
the scheduled starts are non-decreasing and no two scheduled frames
overlap. -/
theorem scheduling_monotone_no_overlap (t d n : ℚ) (s : LiveSession.PlaybackState)
    (chunks : List (ℚ × ℚ)) (hd : 0 ≤ d) (hc : ∀ p ∈ chunks, 0 ≤ p.2) :
    LiveSession.scheduleChunk t d s =
      { nextStartTime := max s.nextStartTime t + d,
        active := s.active ++ [⟨max s.nextStartTime t, d, false⟩] }
    ∧ (LiveSession.playAudioChunkSched t d n).1
        = max n t + (if n < t then (1 : ℚ)/20 else 0)
    ∧ (LiveSession.playAudioChunkSched t d n).2 = (LiveSession.playAudioChunkSched t d n).1 + d
    ∧ t ≤ (LiveSession.scheduleChunk t d s).nextStartTime
    ∧ List.Pairwise (fun p q => p.startTime + p.duration ≤ q.startTime)
        (LiveSession.runSchedule chunks ⟨n, []⟩).active
    ∧ List.Pairwise (fun p q => p.startTime ≤ q.startTime)
        (LiveSession.runSchedule chunks ⟨n, []⟩).active := by
  obtain ⟨hp, hb, hdur⟩ := runSchedule_invariant chunks ⟨n, []⟩ hc
    (by simp) (by simp) (by simp)
  refine ⟨scheduleChunk_eq t d s, ?_, rfl, ?_, hp, ?_⟩
  · unfold LiveSession.playAudioChunkSched
    split
    · rw [max_eq_right (le_of_lt (by assumption))]
    · rw [max_eq_left (not_lt.mp (by assumption)), add_zero]
  · rw [scheduleChunk_eq]
    dsimp only
    exact le_trans (le_max_right _ _) (by linarith)
  · refine List.Pairwise.imp_of_mem ?_ hp
    intro a b ha hb hr
    have := hdur a ha
    linarith

/-- Witness for C2: the scheduling properties instantiated on two concrete
frames, the second arriving after a gap. -/
theorem scheduling_monotone_no_overlap_witness :
    LiveSession.scheduleChunk 2 1 ⟨0, []⟩ =
      { nextStartTime := max (0 : ℚ) 2 + 1,
        active := [] ++ [⟨max (0 : ℚ) 2, 1, false⟩] }
    ∧ (LiveSession.playAudioChunkSched 2 1 0).1
        = max (0 : ℚ) 2 + (if (0 : ℚ) < 2 then (1 : ℚ)/20 else 0)
    ∧ (LiveSession.playAudioChunkSched 2 1 0).2 = (LiveSession.playAudioChunkSched 2 1 0).1 + 1
    ∧ (2 : ℚ) ≤ (LiveSession.scheduleChunk 2 1 ⟨0, []⟩).nextStartTime
    ∧ List.Pairwise (fun p q => p.startTime + p.duration ≤ q.startTime)
        (LiveSession.runSchedule [(0, 2), (5, 1)] ⟨0, []⟩).active
    ∧ List.Pairwise (fun p q => p.startTime ≤ q.startTime)
        (LiveSession.runSchedule [(0, 2), (5, 1)] ⟨0, []⟩).active :=
  scheduling_monotone_no_overlap 2 1 0 ⟨0, []⟩ [(0, 2), (5, 1)] (by norm_num)
    (by intro p hp; simp at hp; rcases hp with rfl | rfl <;> norm_num)

/-! ## C6 -/

theorem bytes_int16_roundtrip (v : ℤ) (h1 : -32768 ≤ v) (h2 : v ≤ 32767) :
    LiveSession.bytesToInt16 (AudioUtils.int16ToBytes v).1 (AudioUtils.int16ToBytes v).2 = v := by
  simp only [AudioUtils.int16ToBytes, LiveSession.bytesToInt16]
  split <;> omega

theorem pcm_sample_roundtrip (s : ℚ) (h1 : -1 < s) (h2 : s < 1) :
    |(LiveSession.bytesToInt16 (AudioUtils.int16ToBytes (AudioUtils.encodePcmSample s)).1
        (AudioUtils.int16ToBytes (AudioUtils.encodePcmSample s)).2 : ℚ) / 32768 - s|
      < 2 / 32768 := by
  obtain ⟨he, hlo, hhi⟩ := encodePcmSample_no_wrap s
  rw [bytes_int16_roundtrip _ hlo hhi]
  have hcl : max (-1) (min 1 s) = s := by
    rw [min_eq_right (le_of_lt h2), max_eq_right (le_of_lt h1)]
  rw [hcl] at he
  by_cases hs : s < 0
  · rw [if_pos hs] at he
    have hx0 : s * 32768 < 0 := by nlinarith
    have hj : jsTrunc (s * 32768) = ⌈s * 32768⌉ := by unfold jsTrunc; rw [if_pos hx0]
    rw [hj] at he
    have hc1 : (⌈s * 32768⌉ : ℚ) < s * 32768 + 1 := Int.ceil_lt_add_one _
    have hc2 : s * 32768 ≤ (⌈s * 32768⌉ : ℚ) := Int.le_ceil _
    rw [he, abs_lt]
    constructor <;> linarith
  · rw [if_neg hs] at he
    push_neg at hs
    have hx0 : ¬ (s * 32767 < 0) := by push_neg; nlinarith
    have hj : jsTrunc (s * 32767) = ⌊s * 32767⌋ := by unfold jsTrunc; rw [if_neg hx0]
    rw [hj] at he
    have hf1 : (⌊s * 32767⌋ : ℚ) ≤ s * 32767 := Int.floor_le _
    have hf2 : s * 32767 < (⌊s * 32767⌋ : ℚ) + 1 := Int.lt_floor_add_one _
    rw [he, abs_lt]
    constructor <;> linarith

/-- C6 counterexample: the claim bound of one quantization step fails at
the sample 9/10, whose encode-decode round trip lands at 29490/32768 with
absolute error 12/327680, strictly greater than 1/32768 = 10/327680. -/
theorem pcm_roundtrip_one_step_ce :
    ¬ List.Forall₂ (fun s d => |d - s| ≤ 1 / 32768) [(9 : ℚ)/10]
        (LiveSession.decodePcm16 (LiveSession.floatTo16BitPCM [(9 : ℚ)/10])) := by
  obtain ⟨he, hlo, hhi⟩ := encodePcmSample_no_wrap ((9 : ℚ)/10)
  have hcl : max (-1) (min 1 ((9 : ℚ)/10)) = 9/10 := by norm_num
  rw [hcl, if_neg (by norm_num)] at he
  have hj : jsTrunc ((9 : ℚ)/10 * 32767) = ⌊(9 : ℚ)/10 * 32767⌋ := by
    unfold jsTrunc; rw [if_neg (by norm_num)]
  have hfl : ⌊(9 : ℚ)/10 * 32767⌋ = 29490 := by
    rw [Int.floor_eq_iff]; norm_num
  have henc : AudioUtils.encodePcmSample ((9 : ℚ)/10) = 29490 := by
    rw [he, hj, hfl]
  have hlist : LiveSession.decodePcm16 (LiveSession.floatTo16BitPCM [(9 : ℚ)/10]) =
      [(29490 : ℚ)/32768] := by
    show LiveSession.decodePcm16 (AudioUtils.pcm16Bytes [(9 : ℚ)/10]) = _
    simp only [AudioUtils.pcm16Bytes, henc, List.map_cons, List.map_nil, List.flatten]
    norm_num [AudioUtils.int16ToBytes, LiveSession.decodePcm16, LiveSession.bytesToInt16]
    split
    · norm_num
    · rename_i hcond
      exact absurd (by decide) hcond
  rw [hlist]
  intro hF
  rcases hF with _ | ⟨hrel, _⟩
  rw [abs_le] at hrel
  have := hrel.1
  norm_num at this

/-- C6 (amended): for every sequence of floats strictly inside (-1, 1),
PCM-encoding with floatTo16BitPCM and decoding by dividing the 16-bit value
by 32768 reproduces each value to within two quantization steps, absolute
error strictly below 2/32768 (the encode scale 32767 and decode scale 32768
differ, so the error can exceed one step near the positive boundary). -/
theorem pcm_roundtrip_two_steps (l : List ℚ) (h : ∀ s ∈ l, -1 < s ∧ s < 1) :
    List.Forall₂ (fun s d => |d - s| < 2 / 32768) l
      (LiveSession.decodePcm16 (LiveSession.floatTo16BitPCM l)) := by
  induction l with
  | nil => exact List.Forall₂.nil
  | cons a t ih =>
      have hstep : LiveSession.decodePcm16 (LiveSession.floatTo16BitPCM (a :: t)) =
          (LiveSession.bytesToInt16 (AudioUtils.int16ToBytes (AudioUtils.encodePcmSample a)).1
            (AudioUtils.int16ToBytes (AudioUtils.encodePcmSample a)).2 : ℚ) / 32768 ::
          LiveSession.decodePcm16 (LiveSession.floatTo16BitPCM t) := rfl
      rw [hstep]
      obtain ⟨ha1, ha2⟩ := h a (by simp)
      exact List.Forall₂.cons (pcm_sample_roundtrip a ha1 ha2)
        (ih (fun s hs => h s (by simp [hs])))

/-- Witness for C6: the two-step round-trip bound at the sample 1/2. -/
theorem pcm_roundtrip_two_steps_witness :
    List.Forall₂ (fun s d => |d - s| < 2 / 32768) [(1 : ℚ)/2]
      (LiveSession.decodePcm16 (LiveSession.floatTo16BitPCM [(1 : ℚ)/2])) :=
  pcm_roundtrip_two_steps [(1 : ℚ)/2]
    (by intro s hs; simp only [List.mem_singleton] at hs; subst hs; norm_num)

/-! ## Downsampler window lemmas -/

theorem getD_range_map_eq_drop_take (b : List ℚ) :
    ∀ (cnt s : ℕ), s + cnt ≤ b.length →
      (List.range cnt).map (fun j => b.getD (s + j) 0) = (b.drop s).take cnt
  | 0, s, _ => by simp
  | cnt + 1, s, h => by
      have hs : s < b.length := by omega
      rw [List.range_succ_eq_map, List.map_cons, List.map_map]
      have hfun : ((fun j => b.getD (s + j) 0) ∘ Nat.succ) =
          (fun j => b.getD (s + 1 + j) 0) := by
        funext j
        simp only [Function.comp]
        congr 1
        omega
      rw [hfun, getD_range_map_eq_drop_take b cnt (s + 1) (by omega),
        List.drop_eq_getElem_cons hs, List.take_succ_cons]
      simp [List.getD_eq_getElem?_getD, List.getElem?_eq_getElem hs]

theorem dsStart_lt_dsEnd {ratio : ℚ} (h1 : 1 < ratio) (i : ℕ) :
    AudioUtils.dsStart i ratio < AudioUtils.dsEnd i ratio := by
  unfold AudioUtils.dsStart AudioUtils.dsEnd
  have h0 : (0 : ℚ) ≤ (i : ℚ) * ratio := by positivity
  have hf0 : 0 ≤ ⌊(i : ℚ) * ratio⌋ := Int.floor_nonneg.mpr h0
  have hle : ⌊(i : ℚ) * ratio⌋ + 1 ≤ ⌊((i : ℚ) + 1) * ratio⌋ := by
    rw [← Int.floor_add_one]
    exact Int.floor_mono (by nlinarith)
  omega

theorem dsStart_lt_len {ratio : ℚ} (h1 : 1 < ratio) {i len : ℕ}
    (hi : i < AudioUtils.dsNewLength len ratio) :
    AudioUtils.dsStart i ratio < len := by
  unfold AudioUtils.dsNewLength at hi
  unfold AudioUtils.dsStart
  have hlen0 : 0 < len := by
    rcases Nat.eq_zero_or_pos len with rfl | h
    · simp at hi
    · exact h
  have hr0 : (0 : ℚ) < ratio := by linarith
  have h2 : (i : ℤ) + 1 ≤ ⌊(len : ℚ) / ratio⌋ := by omega
  have h3 : ((i : ℚ) + 1) ≤ (len : ℚ) / ratio := by
    have := Int.le_floor.mp h2
    push_cast at this
    linarith
  have h4 : ((i : ℚ) + 1) * ratio ≤ (len : ℚ) := (le_div_iff₀ hr0).mp h3
  have h5 : (i : ℚ) * ratio < (len : ℚ) := by nlinarith
  have h6 : ⌊(i : ℚ) * ratio⌋ < (len : ℤ) := Int.floor_lt.mpr (by push_cast; linarith)
  omega

theorem natRound_lt_natRound {ratio : ℚ} (h1 : 1 < ratio) (i : ℕ) :
    natRound ((i : ℚ) * ratio) < natRound (((i : ℚ) + 1) * ratio) := by
  unfold natRound
  have h0 : (0 : ℚ) ≤ (i : ℚ) * ratio + 1/2 := by positivity
  have hf0 : 0 ≤ ⌊(i : ℚ) * ratio + 1/2⌋ := Int.floor_nonneg.mpr h0
  have hle : ⌊(i : ℚ) * ratio + 1/2⌋ + 1 ≤ ⌊((i : ℚ) + 1) * ratio + 1/2⌋ := by
    rw [← Int.floor_add_one]
    exact Int.floor_mono (by nlinarith)
  omega

theorem natRound_lt_len {ratio : ℚ} (h1 : 1 < ratio) {i len : ℕ}
    (hi : i < AudioUtils.dsNewLength len ratio) :
    natRound ((i : ℚ) * ratio) < len := by
  unfold AudioUtils.dsNewLength at hi
  unfold natRound
  have hlen0 : 0 < len := by
    rcases Nat.eq_zero_or_pos len with rfl | h
    · simp at hi
    · exact h
  have hr0 : (0 : ℚ) < ratio := by linarith
  have h2 : (i : ℤ) + 1 ≤ ⌊(len : ℚ) / ratio⌋ := by omega
  have h3 : ((i : ℚ) + 1) ≤ (len : ℚ) / ratio := by
    have := Int.le_floor.mp h2
    push_cast at this
    linarith
  have h4 : ((i : ℚ) + 1) * ratio ≤ (len : ℚ) := (le_div_iff₀ hr0).mp h3
  have h5 : (i : ℚ) * ratio + 1/2 < (len : ℚ) := by nlinarith
  have h6 : ⌊(i : ℚ) * ratio + 1/2⌋ < (len : ℤ) := Int.floor_lt.mpr (by push_cast; linarith)
  omega

theorem natRound_zero_mul (ratio : ℚ) : natRound ((0 : ℚ) * ratio) = 0 := by
  unfold natRound
  rw [zero_mul, zero_add, show ⌊(1/2 : ℚ)⌋ = 0 by rw [Int.floor_eq_iff]; norm_num]
  rfl

theorem part000_loop_eq (buffer : List ℚ) (ratio : ℚ) :
    ∀ (k r : ℕ), Part000.loop buffer ratio k r (natRound ((r : ℚ) * ratio)) =
      (List.range k).map (fun j => Part000.sampleAt buffer ratio (r + j))
  | 0, r => by simp [Part000.loop]
  | k + 1, r => by
      have hcast : natRound (((r : ℚ) + 1) * ratio) =
          natRound (((r + 1 : ℕ) : ℚ) * ratio) := by
        congr 1
        push_cast
        ring
      have ih := part000_loop_eq buffer ratio k (r + 1)
      calc Part000.loop buffer ratio (k + 1) r (natRound ((r : ℚ) * ratio))
          = Part000.sampleAt buffer ratio r ::
            Part000.loop buffer ratio k (r + 1) (natRound (((r : ℚ) + 1) * ratio)) := rfl
        _ = Part000.sampleAt buffer ratio r ::
            (List.range k).map (fun j => Part000.sampleAt buffer ratio (r + 1 + j)) := by
              rw [hcast, ih]
        _ = (List.range (k + 1)).map (fun j => Part000.sampleAt buffer ratio (r + j)) := by
              rw [List.range_succ_eq_map, List.map_cons, List.map_map]
              congr 1
              apply List.map_congr_left
              intro a _
              simp only [Function.comp]
              congr 1
              omega

/-! ## C3 -/

/-- C3: for rates R > T > 0 the converter succeeds and returns exactly
floor(N times T over R) output samples on an input of N samples, and the
part_000 variant produces the same output count. -/
theorem downsample_length_contract (b : List ℚ) (R T : ℚ) (_hT : 0 < T) (hR : T < R) :
    ∃ l, AudioUtils.downsampleBuffer b R T = .ok l
      ∧ l.length = (⌊(b.length : ℚ) * T / R⌋).toNat
      ∧ (Part000.downsampleBuffer b R T).length = (⌊(b.length : ℚ) * T / R⌋).toNat := by
  have hne : ¬ (R = T) := ne_of_gt hR
  have hnlt : ¬ (R < T) := not_lt.mpr (le_of_lt hR)
  have hfloor : ⌊(b.length : ℚ) / (R / T)⌋ = ⌊(b.length : ℚ) * T / R⌋ := by
    rw [div_div_eq_mul_div]
  refine ⟨(List.range (AudioUtils.dsNewLength b.length (R / T))).map
      (fun i => AudioUtils.dsSample b i (R / T)), ?_, ?_, ?_⟩
  · unfold AudioUtils.downsampleBuffer
    rw [if_neg hne, if_neg hnlt]
  · simp [AudioUtils.dsNewLength, hfloor]
  · unfold Part000.downsampleBuffer
    rw [if_neg hne, if_neg hnlt]
    have h0 := part000_loop_eq b (R / T) (AudioUtils.dsNewLength b.length (R / T)) 0
    rw [Nat.cast_zero, natRound_zero_mul] at h0
    show (Part000.loop b (R / T) (AudioUtils.dsNewLength b.length (R / T)) 0 0).length = _
    rw [h0]
    simp [AudioUtils.dsNewLength, hfloor]

/-- Witness for C3: seven samples at 48000 to 16000 give floor(7/3) = 2
output samples. -/
theorem downsample_length_contract_witness :
    ∃ l, AudioUtils.downsampleBuffer ([0, 0, 0, 0, 0, 0, 0] : List ℚ) 48000 16000 = .ok l
      ∧ l.length = (⌊((([0, 0, 0, 0, 0, 0, 0] : List ℚ).length : ℚ)) * 16000 / 48000⌋).toNat
      ∧ (Part000.downsampleBuffer ([0, 0, 0, 0, 0, 0, 0] : List ℚ) 48000 16000).length =
          (⌊((([0, 0, 0, 0, 0, 0, 0] : List ℚ).length : ℚ)) * 16000 / 48000⌋).toNat :=
  downsample_length_contract _ 48000 16000 (by norm_num) (by norm_num)

/-! ## C10 -/

/-- C10: for valid downsampling rates R > T > 0 and a non-empty input,
every averaging window of the audioUtils converter is non-empty and lies
within the input bounds, so the count = 0 fallback branch is unreachable,
every indexed read is in bounds, and every output sample is the
well-defined average of its window; the round-delimited windows of the
part_000 variant are likewise non-empty and in bounds. -/
theorem downsample_windows_nonempty (b : List ℚ) (R T : ℚ) (hT : 0 < T) (hR : T < R)
    (_hb : b ≠ []) (i : ℕ) (hi : i < AudioUtils.dsNewLength b.length (R / T)) :
    AudioUtils.dsStart i (R / T) < min (AudioUtils.dsEnd i (R / T)) b.length
    ∧ min (AudioUtils.dsEnd i (R / T)) b.length ≤ b.length
    ∧ 0 < (AudioUtils.dsWindow b i (R / T)).length
    ∧ AudioUtils.dsSample b i (R / T) =
        (AudioUtils.dsWindow b i (R / T)).sum / ((AudioUtils.dsWindow b i (R / T)).length : ℚ)
    ∧ natRound ((i : ℚ) * (R / T)) < min (natRound (((i : ℚ) + 1) * (R / T))) b.length := by
  have hratio : 1 < R / T := (one_lt_div hT).mpr hR
  have h1 : AudioUtils.dsStart i (R / T) < min (AudioUtils.dsEnd i (R / T)) b.length :=
    lt_min (dsStart_lt_dsEnd hratio i) (dsStart_lt_len hratio hi)
  have hwl : (AudioUtils.dsWindow b i (R / T)).length =
      min (AudioUtils.dsEnd i (R / T)) b.length - AudioUtils.dsStart i (R / T) := by
    simp [AudioUtils.dsWindow]
  refine ⟨h1, min_le_right _ _, ?_, ?_, ?_⟩
  · rw [hwl]; omega
  · unfold AudioUtils.dsSample
    rw [if_pos (by rw [hwl]; omega)]
  · exact lt_min (natRound_lt_natRound hratio i) (natRound_lt_len hratio hi)

/-- Witness for C10: the window bounds at index 0 for three samples
downsampled with ratio 3. -/
theorem downsample_windows_nonempty_witness :
    AudioUtils.dsStart 0 (3 / 1) < min (AudioUtils.dsEnd 0 (3 / 1)) ([1, 2, 3] : List ℚ).length
    ∧ min (AudioUtils.dsEnd 0 (3 / 1)) ([1, 2, 3] : List ℚ).length ≤ ([1, 2, 3] : List ℚ).length
    ∧ 0 < (AudioUtils.dsWindow [1, 2, 3] 0 (3 / 1)).length
    ∧ AudioUtils.dsSample [1, 2, 3] 0 (3 / 1) =
        (AudioUtils.dsWindow [1, 2, 3] 0 (3 / 1)).sum /
          ((AudioUtils.dsWindow [1, 2, 3] 0 (3 / 1)).length : ℚ)
    ∧ natRound ((0 : ℚ) * (3 / 1)) < min (natRound (((0 : ℚ) + 1) * (3 / 1)))
        ([1, 2, 3] : List ℚ).length :=
  downsample_windows_nonempty [1, 2, 3] 3 1 (by norm_num) (by norm_num) (by simp) 0
    (by
      unfold AudioUtils.dsNewLength
      rw [show ((([1, 2, 3] : List ℚ).length : ℚ)) / (3 / 1) = ((1 : ℤ) : ℚ) by norm_num,
        Int.floor_intCast]
      norm_num)

/-! ## C4 -/

theorem getD_map_range (n i : ℕ) (hi : i < n) (f : ℕ → ℚ) :
    ((List.range n).map f).getD i 0 = f i := by
  rw [List.getD_eq_getElem?_getD, List.getElem?_eq_getElem (by simpa using hi)]
  simp

theorem sampleAt_eq_roundWindowMean (b : List ℚ) (ratio : ℚ) (hratio : 1 < ratio)
    {j : ℕ} (hj : j < AudioUtils.dsNewLength b.length ratio) :
    Part000.sampleAt b ratio j = SpecModel.roundWindowMean b ratio j := by
  have hs := lt_min (natRound_lt_natRound hratio j) (natRound_lt_len hratio hj)
  unfold Part000.sampleAt SpecModel.roundWindowMean
  dsimp only
  rw [getD_range_map_eq_drop_take b
    (min (natRound (((j : ℚ) + 1) * ratio)) b.length - natRound ((j : ℚ) * ratio))
    (natRound ((j : ℚ) * ratio)) (by omega)]
  rw [if_pos (by simp [List.length_take, List.length_drop]; omega)]

/-- C4 counterexample: on the input [0, 1, 0] at rates 3 to 2 (ratio 1.5),
the audioUtils converter output at index 1 averages the floor-delimited
window, indices 1 and 2, and yields 1/2, while the round-delimited window
the claim describes holds only index 2 and yields 0. -/
theorem downsample_round_window_ce :
    ∃ l, AudioUtils.downsampleBuffer [0, 1, 0] 3 2 = .ok l
      ∧ l.getD 1 0 = 1/2
      ∧ SpecModel.roundWindowMean [0, 1, 0] (3/2) 1 = 0
      ∧ l.getD 1 0 ≠ SpecModel.roundWindowMean [0, 1, 0] (3/2) 1 := by
  have hne : ¬ ((3 : ℚ) = 2) := by norm_num
  have hnlt : ¬ ((3 : ℚ) < 2) := by norm_num
  have hN : AudioUtils.dsNewLength ([0, 1, 0] : List ℚ).length (3/2) = 2 := by
    unfold AudioUtils.dsNewLength
    rw [show ((([0, 1, 0] : List ℚ).length : ℚ)) / ((3 : ℚ)/2) = ((2 : ℤ) : ℚ) by norm_num,
      Int.floor_intCast]
    rfl
  have hs1 : AudioUtils.dsStart 1 (3/2) = 1 := by
    unfold AudioUtils.dsStart
    rw [show ((1 : ℕ) : ℚ) * ((3 : ℚ)/2) = 3/2 by norm_num,
      show ⌊(3 : ℚ)/2⌋ = 1 by rw [Int.floor_eq_iff]; norm_num]
    rfl
  have he1 : AudioUtils.dsEnd 1 (3/2) = 3 := by
    unfold AudioUtils.dsEnd
    rw [show (((1 : ℕ) : ℚ) + 1) * ((3 : ℚ)/2) = ((3 : ℤ) : ℚ) by norm_num,
      Int.floor_intCast]
    rfl
  have hr1 : natRound (((1 : ℕ) : ℚ) * ((3 : ℚ)/2)) = 2 := by
    unfold natRound
    rw [show ((1 : ℕ) : ℚ) * ((3 : ℚ)/2) + 1/2 = ((2 : ℤ) : ℚ) by norm_num,
      Int.floor_intCast]
    rfl
  have hr2 : natRound ((((1 : ℕ) : ℚ) + 1) * ((3 : ℚ)/2)) = 3 := by
    unfold natRound
    rw [show (((1 : ℕ) : ℚ) + 1) * ((3 : ℚ)/2) + 1/2 = 7/2 by norm_num,
      show ⌊(7 : ℚ)/2⌋ = 3 by rw [Int.floor_eq_iff]; norm_num]
    rfl
  have hv2 : AudioUtils.dsSample [0, 1, 0] 1 (3/2) = 1/2 := by
    unfold AudioUtils.dsSample AudioUtils.dsWindow
    rw [hs1, he1]
    norm_num [List.range_succ]
  have hv3 : SpecModel.roundWindowMean [0, 1, 0] (3/2) 1 = 0 := by
    unfold SpecModel.roundWindowMean
    rw [hr1, hr2]
    norm_num
  refine ⟨(List.range (AudioUtils.dsNewLength ([0, 1, 0] : List ℚ).length ((3 : ℚ)/2))).map
      (fun i => AudioUtils.dsSample [0, 1, 0] i ((3 : ℚ)/2)), ?_, ?_, hv3, ?_⟩
  · unfold AudioUtils.downsampleBuffer
    rw [if_neg hne, if_neg hnlt]
  · rw [hN, getD_map_range 2 1 (by norm_num), hv2]
  · rw [hN, getD_map_range 2 1 (by norm_num), hv2, hv3]
    norm_num

/-- C4 (amended): for rates R > T > 0 the audioUtils converter output
sample at each index is the arithmetic mean of the input samples in the
floor-delimited window from floor(i times ratio) to floor((i+1) times
ratio) clamped to the input bounds, not the round-delimited window the
claim states; the part_000 variant does use the round-delimited windows
and matches the claimed description exactly. -/
theorem downsample_window_mean (b : List ℚ) (R T : ℚ) (hT : 0 < T) (hR : T < R)
    (l : List ℚ) (hl : AudioUtils.downsampleBuffer b R T = .ok l)
    (i : ℕ) (hi : i < l.length) :
    l.getD i 0 =
      ((b.drop (AudioUtils.dsStart i (R / T))).take
        (min (AudioUtils.dsEnd i (R / T)) b.length - AudioUtils.dsStart i (R / T))).sum /
      (((b.drop (AudioUtils.dsStart i (R / T))).take
        (min (AudioUtils.dsEnd i (R / T)) b.length - AudioUtils.dsStart i (R / T))).length : ℚ)
    ∧ 0 < min (AudioUtils.dsEnd i (R / T)) b.length - AudioUtils.dsStart i (R / T)
    ∧ Part000.downsampleBuffer b R T =
        (List.range (AudioUtils.dsNewLength b.length (R / T))).map
          (SpecModel.roundWindowMean b (R / T)) := by
  have hratio : 1 < R / T := (one_lt_div hT).mpr hR
  have hne : ¬ (R = T) := ne_of_gt hR
  have hnlt : ¬ (R < T) := not_lt.mpr (le_of_lt hR)
  have hl' : l = (List.range (AudioUtils.dsNewLength b.length (R / T))).map
      (fun i => AudioUtils.dsSample b i (R / T)) := by
    unfold AudioUtils.downsampleBuffer at hl
    rw [if_neg hne, if_neg hnlt] at hl
    exact (Except.ok.inj hl).symm
  have hi' : i < AudioUtils.dsNewLength b.length (R / T) := by
    rw [hl'] at hi
    simpa using hi
  have hsf := lt_min (dsStart_lt_dsEnd hratio i) (dsStart_lt_len hratio hi')
  refine ⟨?_, by omega, ?_⟩
  · rw [hl', getD_map_range _ _ hi']
    unfold AudioUtils.dsSample
    rw [if_pos (by simp [AudioUtils.dsWindow]; omega)]
    unfold AudioUtils.dsWindow
    rw [getD_range_map_eq_drop_take b
      (min (AudioUtils.dsEnd i (R / T)) b.length - AudioUtils.dsStart i (R / T))
      (AudioUtils.dsStart i (R / T)) (by omega)]
  · unfold Part000.downsampleBuffer
    rw [if_neg hne, if_neg hnlt]
    have h0 := part000_loop_eq b (R / T) (AudioUtils.dsNewLength b.length (R / T)) 0
    rw [Nat.cast_zero, natRound_zero_mul] at h0
    show Part000.loop b (R / T) (AudioUtils.dsNewLength b.length (R / T)) 0 0 = _
    rw [h0]
    apply List.map_congr_left
    intro j hj
    rw [List.mem_range] at hj
    rw [Nat.zero_add]
    exact sampleAt_eq_roundWindowMean b (R / T) hratio hj

/-- Witness for C4: the floor-window mean at index 0 of [5, 7] downsampled
from rate 2 to rate 1, which averages both samples to 6. -/
theorem downsample_window_mean_witness :
    (((List.range (AudioUtils.dsNewLength ([5, 7] : List ℚ).length ((2 : ℚ)/1))).map
        (fun i => AudioUtils.dsSample [5, 7] i ((2 : ℚ)/1))) : List ℚ).getD 0 0 =
      ((([5, 7] : List ℚ).drop (AudioUtils.dsStart 0 ((2 : ℚ)/1))).take
        (min (AudioUtils.dsEnd 0 ((2 : ℚ)/1)) ([5, 7] : List ℚ).length -
          AudioUtils.dsStart 0 ((2 : ℚ)/1))).sum /
      (((([5, 7] : List ℚ).drop (AudioUtils.dsStart 0 ((2 : ℚ)/1))).take
        (min (AudioUtils.dsEnd 0 ((2 : ℚ)/1)) ([5, 7] : List ℚ).length -
          AudioUtils.dsStart 0 ((2 : ℚ)/1))).length : ℚ)
    ∧ 0 < min (AudioUtils.dsEnd 0 ((2 : ℚ)/1)) ([5, 7] : List ℚ).length -
        AudioUtils.dsStart 0 ((2 : ℚ)/1)
    ∧ Part000.downsampleBuffer [5, 7] 2 1 =
        (List.range (AudioUtils.dsNewLength ([5, 7] : List ℚ).length ((2 : ℚ)/1))).map
          (SpecModel.roundWindowMean [5, 7] ((2 : ℚ)/1)) :=
  downsample_window_mean [5, 7] 2 1 (by norm_num) (by norm_num) _ rfl 0
    (by
      simp only [List.length_map, List.length_range]
      unfold AudioUtils.dsNewLength
      rw [show ((([5, 7] : List ℚ).length : ℚ)) / ((2 : ℚ)/1) = ((1 : ℤ) : ℚ) by norm_num,
        Int.floor_intCast]
      norm_num)
